import Mathlib

/-!
A verification development for the `go-mvtinfo` tile-statistics probe.

The Go program enumerates every map tile in a derived coordinate range,
fetches each tile, records its wire byte size and per-layer feature
counts, and a single reducer goroutine folds the stream of per-tile
results into global and per-layer min/max/total statistics before
printing a sorted report.

Modelling conventions:
- Go strings are byte sequences, so they are modelled as `List Nat`;
  Go's `<` on strings is bytewise lexicographic comparison, which is
  the lexicographic order on `List Nat`.
- Go `uint64` values are modelled as `Nat`; every place the Go code
  adds two `uint64` values the model reduces modulo `2 ^ 64`.
- The fetch path (`getTileInfo`) is modelled over an explicit network
  outcome and explicit decompressor/decoder functions, since the HTTP
  client, `compress/gzip` and `mvt.Unmarshal` are external libraries;
  a Go `panic` is modelled as `Except.error`.
- The concurrent fan-out/reduce is modelled as the fold of the stream
  of completed results, quantified over arbitrary delivery orders.
-/

namespace MvtInfo

/-- A Go `string` viewed as its byte sequence. -/
abbrev ByteStr := List Nat

/-- The modulus of Go's `uint64` arithmetic. -/
def U64MOD : Nat := 2 ^ 64

/-- `math.MaxUint64`, the initial value of the running minima. -/
def U64MAX : Nat := 2 ^ 64 - 1

/-- Addition of two `uint64` values (wraps modulo `2 ^ 64`). -/
def addU64 (a b : Nat) : Nat := (a + b) % U64MOD

/-- `layerInfo`: one decoded layer's name and feature count
(struct `layerInfo` in `main.go`). -/
structure layerInfo where
  Name : ByteStr
  Count : Nat
  deriving DecidableEq

/-- `tileInfo`: one fetched tile's coordinate, wire byte size, total
feature count and per-layer samples (struct `tileInfo` in `main.go`). -/
structure tileInfo where
  X : Int
  Y : Int
  Size : Nat
  Features : Nat
  Layers : List layerInfo
  deriving DecidableEq

/-- `layerCount`: the running per-layer aggregate
(struct `layerCount` in `main.go`). -/
structure layerCount where
  layer : ByteStr
  min : Nat
  minAtX : Int
  minAtY : Int
  max : Nat
  maxAtX : Int
  maxAtY : Int
  total : Nat
  tile : Nat
  deriving DecidableEq

/-- The reducer goroutine's local variables (`main.go`, lines 96-114). -/
structure AggState where
  minTileSize : Nat
  maxTileSize : Nat
  totalTileSize : Nat
  minFeatures : Nat
  maxFeatures : Nat
  totalFeatures : Nat
  minTileSizeAtX : Int
  minTileSizeAtY : Int
  maxTileSizeAtX : Int
  maxTileSizeAtY : Int
  minFeaturesAtX : Int
  minFeaturesAtY : Int
  maxFeaturesAtX : Int
  maxFeaturesAtY : Int
  layer2CountMap : List (ByteStr × layerCount)
  deriving DecidableEq

/-- The reducer's initial state: minima start at `math.MaxUint64`,
maxima and totals at `0`, the coordinates at Go's zero value `0`, and
the layer map empty. -/
def initState : AggState where
  minTileSize := U64MAX
  maxTileSize := 0
  totalTileSize := 0
  minFeatures := U64MAX
  maxFeatures := 0
  totalFeatures := 0
  minTileSizeAtX := 0
  minTileSizeAtY := 0
  maxTileSizeAtX := 0
  maxTileSizeAtY := 0
  minFeaturesAtX := 0
  minFeaturesAtY := 0
  maxFeaturesAtX := 0
  maxFeaturesAtY := 0
  layer2CountMap := []

/-- The `layerCount` created on first observation of a layer name
(`main.go`, lines 140-149): the sample's count seeds both min and max,
the current tile's coordinate both locations, `total` is the count and
`tile` is 1.  The `layer` field keeps Go's zero value (the empty
string); it is filled in from the map key only at print time. -/
def seedLayerCount (x y : Int) (cnt : Nat) : layerCount where
  layer := []
  min := cnt
  minAtX := x
  minAtY := y
  max := cnt
  maxAtX := x
  maxAtY := y
  total := cnt
  tile := 1

/-- The update applied to an existing `layerCount` for a new sample of
the same layer name (`main.go`, lines 151-162): strict `<`/`>` updates
of min/max with their locations, then `total += count` and
`tile += 1`. -/
def updateLayerCount (x y : Int) (cnt : Nat) (c : layerCount) : layerCount :=
  let c1 := if cnt < c.min then { c with min := cnt, minAtX := x, minAtY := y } else c
  let c2 := if cnt > c1.max then { c1 with max := cnt, maxAtX := x, maxAtY := y } else c1
  { c2 with total := addU64 c2.total cnt, tile := c2.tile + 1 }

/-- The reducer's `layer2CountMap` modelled as an association list with
unique keys; `updateLayer` is the body of the per-sample loop
(`main.go`, lines 138-164): seed a fresh entry when the name is unseen,
otherwise update the existing entry in place. -/
def updateLayer (x y : Int) (li : layerInfo) :
    List (ByteStr × layerCount) → List (ByteStr × layerCount)
  | [] => [(li.Name, seedLayerCount x y li.Count)]
  | (k, c) :: m =>
    if k = li.Name then (k, updateLayerCount x y li.Count c) :: m
    else (k, c) :: updateLayer x y li m

/-- Go map lookup on the association-list model. -/
def lookupLayer : List (ByteStr × layerCount) → ByteStr → Option layerCount
  | [], _ => none
  | (k, c) :: m, nm => if k = nm then some c else lookupLayer m nm

/-- Size-minimum update (`main.go`, lines 116-120). -/
def updMinSize (s : AggState) (i : tileInfo) : AggState :=
  if i.Size < s.minTileSize then
    { s with minTileSize := i.Size, minTileSizeAtX := i.X, minTileSizeAtY := i.Y }
  else s

/-- Size-maximum update (`main.go`, lines 121-125). -/
def updMaxSize (s : AggState) (i : tileInfo) : AggState :=
  if i.Size > s.maxTileSize then
    { s with maxTileSize := i.Size, maxTileSizeAtX := i.X, maxTileSizeAtY := i.Y }
  else s

/-- Feature-minimum update (`main.go`, lines 127-131). -/
def updMinFeatures (s : AggState) (i : tileInfo) : AggState :=
  if i.Features < s.minFeatures then
    { s with minFeatures := i.Features, minFeaturesAtX := i.X, minFeaturesAtY := i.Y }
  else s

/-- Feature-maximum update (`main.go`, lines 132-136). -/
def updMaxFeatures (s : AggState) (i : tileInfo) : AggState :=
  if i.Features > s.maxFeatures then
    { s with maxFeatures := i.Features, maxFeaturesAtX := i.X, maxFeaturesAtY := i.Y }
  else s

/-- One iteration of the reducer loop (`main.go`, lines 115-165), in
the source's order: size min/max, size total, feature min/max, feature
total, then the per-layer samples. -/
def step (s : AggState) (i : tileInfo) : AggState :=
  let s1 := updMinSize s i
  let s2 := updMaxSize s1 i
  let s3 := { s2 with totalTileSize := addU64 s2.totalTileSize i.Size }
  let s4 := updMinFeatures s3 i
  let s5 := updMaxFeatures s4 i
  let s6 := { s5 with totalFeatures := addU64 s5.totalFeatures i.Features }
  { s6 with
    layer2CountMap := i.Layers.foldl (fun m li => updateLayer i.X i.Y li m) s6.layer2CountMap }

/-- The reducer's consumption of a complete result stream: fold the
per-tile results, in delivery order, over the initial state. -/
def reduce (l : List tileInfo) : AggState := l.foldl step initState

/-- Copying the map into the `counts` slice for printing (`main.go`,
lines 176-181): each value gets its `layer` field set from its key. -/
def extractCounts (m : List (ByteStr × layerCount)) : List layerCount :=
  m.map (fun kc => { kc.2 with layer := kc.1 })

/-- The map keys, in the order the association list holds them. -/
def keysOf (m : List (ByteStr × layerCount)) : List ByteStr :=
  m.map Prod.fst

/-- The final sorted per-layer view (`main.go`, lines 176-182):
`sort.Sort` with `Less i j = counts[i].layer < counts[j].layer`, i.e.
sorting by ascending layer name under bytewise comparison. -/
def finalCounts (l : List tileInfo) : List layerCount :=
  List.insertionSort (fun a b => a.layer ≤ b.layer)
    (extractCounts (reduce l).layer2CountMap)

/-- One decoded MVT layer as returned by the external decoder: a name
and the slice of features (only its length is consumed). -/
structure mvtLayer where
  Name : ByteStr
  Features : List Unit
  deriving DecidableEq

/-- An HTTP response as far as `getTileInfo` inspects it: the
`Content-Encoding` header and the raw body bytes. -/
structure Response where
  contentEncoding : ByteStr
  body : List Nat
  deriving DecidableEq

/-- `strings.Contains`: does `hay` contain `needle` as a contiguous
subsequence? -/
def containsSub (needle : ByteStr) : ByteStr → Bool
  | [] => needle.isEmpty
  | a :: t => needle.isPrefixOf (a :: t) || containsSub needle t

/-- The bytes of the string literal `"gzip"`. -/
def gzipBytes : ByteStr := [103, 122, 105, 112]

/-- The counting loop over decoded layers (`main.go`, lines 246-255):
accumulate `features += uint64(len(layer.Features))` and append a
`layerInfo` with the same count. -/
def decodeLayers (layers : List mvtLayer) : Nat × List layerInfo :=
  layers.foldl
    (fun acc layer =>
      let count := layer.Features.length
      (addU64 acc.1 count, acc.2 ++ [{ Name := layer.Name, Count := count }]))
    (0, [])

/-- `getTileInfo` (`main.go`, lines 209-264) from the network outcome
on: a failed request/read is `net = .error`; otherwise the wire size is
captured as the body length before any decompression, the body is
gunzipped when the response declares gzip and compression was allowed,
the result is decoded, and the `tileInfo` is assembled.  Every Go
`panic` branch becomes `Except.error`. -/
def getTileInfo (noGzip : Bool)
    (gunzip : List Nat → Except String (List Nat))
    (unmarshal : List Nat → Except String (List mvtLayer))
    (x y : Int) (net : Except String Response) : Except String tileInfo :=
  match net with
  | .error e => .error e
  | .ok resp =>
    let data := resp.body
    let size := data.length
    let decomp : Except String (List Nat) :=
      if containsSub gzipBytes resp.contentEncoding && !noGzip then gunzip data
      else .ok data
    match decomp with
    | .error e => .error e
    | .ok d =>
      match unmarshal d with
      | .error e => .error e
      | .ok layers =>
        let fl := decodeLayers layers
        .ok { X := x, Y := y, Size := size, Features := fl.1, Layers := fl.2 }

/-- Generic running minimum with location, seeded at `(v, x, y)`,
updating only under strict `<` — the shape shared by the reducer's
minima. -/
def extMin (f : α → Nat) (gx gy : α → Int) : Nat → Int → Int → List α → Nat × Int × Int
  | v, x, y, [] => (v, x, y)
  | v, x, y, a :: l =>
    if f a < v then extMin f gx gy (f a) (gx a) (gy a) l
    else extMin f gx gy v x y l

/-- Generic running maximum with location, updating only under strict
`>`. -/
def extMax (f : α → Nat) (gx gy : α → Int) : Nat → Int → Int → List α → Nat × Int × Int
  | v, x, y, [] => (v, x, y)
  | v, x, y, a :: l =>
    if f a > v then extMax f gx gy (f a) (gx a) (gy a) l
    else extMax f gx gy v x y l

/-- The per-name view of one layer-map cell: absent means the name is
unseen; a sample either seeds or updates the cell. -/
def layerStep (o : Option layerCount) (p : Nat × Int × Int) : Option layerCount :=
  match o with
  | none => some (seedLayerCount p.2.1 p.2.2 p.1)
  | some c => some (updateLayerCount p.2.1 p.2.2 p.1 c)

/-- The stream of `(count, x, y)` samples carrying layer name `nm`, in
feed order. -/
def layerSamples (nm : ByteStr) (l : List tileInfo) : List (Nat × Int × Int) :=
  l.flatMap (fun i =>
    i.Layers.filterMap (fun li =>
      if li.Name = nm then some (li.Count, i.X, i.Y) else none))

/-! ### Projections of one reducer iteration -/

theorem step_minSize_triple (s : AggState) (i : tileInfo) :
    ((step s i).minTileSize, (step s i).minTileSizeAtX, (step s i).minTileSizeAtY)
      = if i.Size < s.minTileSize then (i.Size, i.X, i.Y)
        else (s.minTileSize, s.minTileSizeAtX, s.minTileSizeAtY) := by
  simp only [step, updMinSize, updMaxSize, updMinFeatures, updMaxFeatures]
  split_ifs <;> rfl

theorem step_maxSize_triple (s : AggState) (i : tileInfo) :
    ((step s i).maxTileSize, (step s i).maxTileSizeAtX, (step s i).maxTileSizeAtY)
      = if i.Size > s.maxTileSize then (i.Size, i.X, i.Y)
        else (s.maxTileSize, s.maxTileSizeAtX, s.maxTileSizeAtY) := by
  simp only [step, updMinSize, updMaxSize, updMinFeatures, updMaxFeatures]
  split_ifs <;> rfl

theorem step_minFeatures_triple (s : AggState) (i : tileInfo) :
    ((step s i).minFeatures, (step s i).minFeaturesAtX, (step s i).minFeaturesAtY)
      = if i.Features < s.minFeatures then (i.Features, i.X, i.Y)
        else (s.minFeatures, s.minFeaturesAtX, s.minFeaturesAtY) := by
  simp only [step, updMinSize, updMaxSize, updMinFeatures, updMaxFeatures]
  split_ifs <;> rfl

theorem step_maxFeatures_triple (s : AggState) (i : tileInfo) :
    ((step s i).maxFeatures, (step s i).maxFeaturesAtX, (step s i).maxFeaturesAtY)
      = if i.Features > s.maxFeatures then (i.Features, i.X, i.Y)
        else (s.maxFeatures, s.maxFeaturesAtX, s.maxFeaturesAtY) := by
  simp only [step, updMinSize, updMaxSize, updMinFeatures, updMaxFeatures]
  split_ifs <;> rfl

theorem step_totalTileSize (s : AggState) (i : tileInfo) :
    (step s i).totalTileSize = addU64 s.totalTileSize i.Size := by
  simp only [step, updMinSize, updMaxSize, updMinFeatures, updMaxFeatures]
  split_ifs <;> rfl

theorem step_totalFeatures (s : AggState) (i : tileInfo) :
    (step s i).totalFeatures = addU64 s.totalFeatures i.Features := by
  simp only [step, updMinSize, updMaxSize, updMinFeatures, updMaxFeatures]
  split_ifs <;> rfl

theorem step_layer2CountMap (s : AggState) (i : tileInfo) :
    (step s i).layer2CountMap
      = i.Layers.foldl (fun m li => updateLayer i.X i.Y li m) s.layer2CountMap := by
  simp only [step, updMinSize, updMaxSize, updMinFeatures, updMaxFeatures]
  split_ifs <;> rfl

/-! ### The generic strict-update extremum folds -/

theorem extMin_fst_le (f : α → Nat) (gx gy : α → Int) :
    ∀ (l : List α) (v : Nat) (x y : Int), (extMin f gx gy v x y l).1 ≤ v := by
  intro l
  induction l with
  | nil => intro v x y; exact le_refl v
  | cons a l ih =>
    intro v x y
    by_cases h : f a < v
    · simpa [extMin, h] using le_trans (ih (f a) (gx a) (gy a)) (le_of_lt h)
    · simpa [extMin, h] using ih v x y

theorem extMin_fst_le_mem (f : α → Nat) (gx gy : α → Int) :
    ∀ (l : List α) (v : Nat) (x y : Int) (a : α), a ∈ l →
      (extMin f gx gy v x y l).1 ≤ f a := by
  intro l
  induction l with
  | nil => intro v x y a ha; cases ha
  | cons b l ih =>
    intro v x y a ha
    rcases List.mem_cons.mp ha with rfl | ha
    · by_cases h : f a < v
      · simpa [extMin, h] using extMin_fst_le f gx gy l (f a) (gx a) (gy a)
      · simpa [extMin, h] using le_trans (extMin_fst_le f gx gy l v x y) (le_of_not_lt h)
    · by_cases h : f b < v
      · simpa [extMin, h] using ih (f b) (gx b) (gy b) a ha
      · simpa [extMin, h] using ih v x y a ha

theorem extMax_fst_ge (f : α → Nat) (gx gy : α → Int) :
    ∀ (l : List α) (v : Nat) (x y : Int), v ≤ (extMax f gx gy v x y l).1 := by
  intro l
  induction l with
  | nil => intro v x y; exact le_refl v
  | cons a l ih =>
    intro v x y
    by_cases h : f a > v
    · simpa [extMax, h] using le_trans (le_of_lt h) (ih (f a) (gx a) (gy a))
    · simpa [extMax, h] using ih v x y

theorem extMax_fst_ge_mem (f : α → Nat) (gx gy : α → Int) :
    ∀ (l : List α) (v : Nat) (x y : Int) (a : α), a ∈ l →
      f a ≤ (extMax f gx gy v x y l).1 := by
  intro l
  induction l with
  | nil => intro v x y a ha; cases ha
  | cons b l ih =>
    intro v x y a ha
    rcases List.mem_cons.mp ha with rfl | ha
    · by_cases h : f a > v
      · simpa [extMax, h] using extMax_fst_ge f gx gy l (f a) (gx a) (gy a)
      · simpa [extMax, h] using le_trans (le_of_not_lt h) (extMax_fst_ge f gx gy l v x y)
    · by_cases h : f b > v
      · simpa [extMax, h] using ih (f b) (gx b) (gy b) a ha
      · simpa [extMax, h] using ih v x y a ha

/-- Where the strict-`<` running minimum ends up: either no element ever
beat the seed, or the fold returns the value and location of the first
element attaining the final minimum, every earlier element being
strictly larger. -/
theorem extMin_spec (f : α → Nat) (gx gy : α → Int) :
    ∀ (l : List α) (v : Nat) (x y : Int),
      (extMin f gx gy v x y l = (v, x, y) ∧ ∀ a ∈ l, v ≤ f a)
      ∨ ∃ pre a post, l = pre ++ a :: post ∧
          extMin f gx gy v x y l = (f a, gx a, gy a) ∧ f a < v ∧
          ∀ b ∈ pre, f a < f b := by
  intro l
  induction l with
  | nil => intro v x y; exact Or.inl ⟨rfl, by simp⟩
  | cons a l ih =>
    intro v x y
    by_cases h : f a < v
    · rcases ih (f a) (gx a) (gy a) with ⟨heq, _⟩ | ⟨pre, b, post, hsp, heq, hlt, hpre⟩
      · exact Or.inr ⟨[], a, l, rfl, by simp [extMin, h, heq], h, by simp⟩
      · refine Or.inr ⟨a :: pre, b, post, by simp [hsp], by simp [extMin, h, heq],
          lt_trans hlt h, ?_⟩
        intro c hc
        rcases List.mem_cons.mp hc with rfl | hc
        · exact hlt
        · exact hpre c hc
    · rcases ih v x y with ⟨heq, hall⟩ | ⟨pre, b, post, hsp, heq, hlt, hpre⟩
      · refine Or.inl ⟨by simp [extMin, h, heq], ?_⟩
        intro c hc
        rcases List.mem_cons.mp hc with rfl | hc
        · exact le_of_not_lt h
        · exact hall c hc
      · refine Or.inr ⟨a :: pre, b, post, by simp [hsp], by simp [extMin, h, heq], hlt, ?_⟩
        intro c hc
        rcases List.mem_cons.mp hc with rfl | hc
        · exact lt_of_lt_of_le hlt (le_of_not_lt h)
        · exact hpre c hc

/-- Where the strict-`>` running maximum ends up, dually. -/
theorem extMax_spec (f : α → Nat) (gx gy : α → Int) :
    ∀ (l : List α) (v : Nat) (x y : Int),
      (extMax f gx gy v x y l = (v, x, y) ∧ ∀ a ∈ l, f a ≤ v)
      ∨ ∃ pre a post, l = pre ++ a :: post ∧
          extMax f gx gy v x y l = (f a, gx a, gy a) ∧ v < f a ∧
          ∀ b ∈ pre, f b < f a := by
  intro l
  induction l with
  | nil => intro v x y; exact Or.inl ⟨rfl, by simp⟩
  | cons a l ih =>
    intro v x y
    by_cases h : f a > v
    · rcases ih (f a) (gx a) (gy a) with ⟨heq, _⟩ | ⟨pre, b, post, hsp, heq, hlt, hpre⟩
      · exact Or.inr ⟨[], a, l, rfl, by simp [extMax, h, heq], h, by simp⟩
      · refine Or.inr ⟨a :: pre, b, post, by simp [hsp], by simp [extMax, h, heq],
          lt_trans h hlt, ?_⟩
        intro c hc
        rcases List.mem_cons.mp hc with rfl | hc
        · exact hlt
        · exact hpre c hc
    · rcases ih v x y with ⟨heq, hall⟩ | ⟨pre, b, post, hsp, heq, hlt, hpre⟩
      · refine Or.inl ⟨by simp [extMax, h, heq], ?_⟩
        intro c hc
        rcases List.mem_cons.mp hc with rfl | hc
        · exact le_of_not_lt h
        · exact hall c hc
      · refine Or.inr ⟨a :: pre, b, post, by simp [hsp], by simp [extMax, h, heq], hlt, ?_⟩
        intro c hc
        rcases List.mem_cons.mp hc with rfl | hc
        · exact lt_of_le_of_lt (le_of_not_lt h) hlt
        · exact hpre c hc

/-! ### The reducer's extrema are instances of the generic folds -/

theorem foldl_step_min (l : List tileInfo) : ∀ (s : AggState),
    ((l.foldl step s).minTileSize, (l.foldl step s).minTileSizeAtX,
      (l.foldl step s).minTileSizeAtY)
      = extMin (fun i => i.Size) (fun i => i.X) (fun i => i.Y)
          s.minTileSize s.minTileSizeAtX s.minTileSizeAtY l := by
  induction l with
  | nil => intro s; rfl
  | cons a l ih =>
    intro s
    have h := step_minSize_triple s a
    rw [List.foldl_cons, ih (step s a)]
    by_cases hlt : a.Size < s.minTileSize
    · rw [if_pos hlt] at h
      injection h with h1 h23; injection h23 with h2 h3
      simp [extMin, hlt, h1, h2, h3]
    · rw [if_neg hlt] at h
      injection h with h1 h23; injection h23 with h2 h3
      simp [extMin, hlt, h1, h2, h3]

theorem foldl_step_max (l : List tileInfo) : ∀ (s : AggState),
    ((l.foldl step s).maxTileSize, (l.foldl step s).maxTileSizeAtX,
      (l.foldl step s).maxTileSizeAtY)
      = extMax (fun i => i.Size) (fun i => i.X) (fun i => i.Y)
          s.maxTileSize s.maxTileSizeAtX s.maxTileSizeAtY l := by
  induction l with
  | nil => intro s; rfl
  | cons a l ih =>
    intro s
    have h := step_maxSize_triple s a
    rw [List.foldl_cons, ih (step s a)]
    by_cases hlt : a.Size > s.maxTileSize
    · rw [if_pos hlt] at h
      injection h with h1 h23; injection h23 with h2 h3
      simp [extMax, hlt, h1, h2, h3]
    · rw [if_neg hlt] at h
      injection h with h1 h23; injection h23 with h2 h3
      simp [extMax, hlt, h1, h2, h3]

theorem foldl_step_minFeatures (l : List tileInfo) : ∀ (s : AggState),
    ((l.foldl step s).minFeatures, (l.foldl step s).minFeaturesAtX,
      (l.foldl step s).minFeaturesAtY)
      = extMin (fun i => i.Features) (fun i => i.X) (fun i => i.Y)
          s.minFeatures s.minFeaturesAtX s.minFeaturesAtY l := by
  induction l with
  | nil => intro s; rfl
  | cons a l ih =>
    intro s
    have h := step_minFeatures_triple s a
    rw [List.foldl_cons, ih (step s a)]
    by_cases hlt : a.Features < s.minFeatures
    · rw [if_pos hlt] at h
      injection h with h1 h23; injection h23 with h2 h3
      simp [extMin, hlt, h1, h2, h3]
    · rw [if_neg hlt] at h
      injection h with h1 h23; injection h23 with h2 h3
      simp [extMin, hlt, h1, h2, h3]

theorem foldl_step_maxFeatures (l : List tileInfo) : ∀ (s : AggState),
    ((l.foldl step s).maxFeatures, (l.foldl step s).maxFeaturesAtX,
      (l.foldl step s).maxFeaturesAtY)
      = extMax (fun i => i.Features) (fun i => i.X) (fun i => i.Y)
          s.maxFeatures s.maxFeaturesAtX s.maxFeaturesAtY l := by
  induction l with
  | nil => intro s; rfl
  | cons a l ih =>
    intro s
    have h := step_maxFeatures_triple s a
    rw [List.foldl_cons, ih (step s a)]
    by_cases hlt : a.Features > s.maxFeatures
    · rw [if_pos hlt] at h
      injection h with h1 h23; injection h23 with h2 h3
      simp [extMax, hlt, h1, h2, h3]
    · rw [if_neg hlt] at h
      injection h with h1 h23; injection h23 with h2 h3
      simp [extMax, hlt, h1, h2, h3]

/-! ### Totals -/

theorem U64MOD_pos : 0 < U64MOD := by
  simp [U64MOD]

theorem foldl_addU64 (l : List Nat) : ∀ (a : Nat), a < U64MOD →
    l.foldl addU64 a = (a + l.sum) % U64MOD := by
  induction l with
  | nil => intro a ha; simp [Nat.mod_eq_of_lt ha]
  | cons b l ih =>
    intro a ha
    rw [List.foldl_cons, ih (addU64 a b) (Nat.mod_lt _ U64MOD_pos)]
    simp [addU64, Nat.mod_add_mod, Nat.add_assoc]

theorem foldl_step_totalTileSize (l : List tileInfo) : ∀ (s : AggState),
    (l.foldl step s).totalTileSize = (l.map tileInfo.Size).foldl addU64 s.totalTileSize := by
  induction l with
  | nil => intro s; rfl
  | cons a l ih =>
    intro s
    rw [List.foldl_cons, ih (step s a), List.map_cons, List.foldl_cons, step_totalTileSize]

theorem foldl_step_totalFeatures (l : List tileInfo) : ∀ (s : AggState),
    (l.foldl step s).totalFeatures = (l.map tileInfo.Features).foldl addU64 s.totalFeatures := by
  induction l with
  | nil => intro s; rfl
  | cons a l ih =>
    intro s
    rw [List.foldl_cons, ih (step s a), List.map_cons, List.foldl_cons, step_totalFeatures]

theorem reduce_totalTileSize (l : List tileInfo) :
    (reduce l).totalTileSize = (l.map tileInfo.Size).sum % U64MOD := by
  rw [reduce, foldl_step_totalTileSize]
  have h0 : initState.totalTileSize = 0 := rfl
  rw [h0, foldl_addU64 _ 0 U64MOD_pos]
  simp

theorem reduce_totalFeatures (l : List tileInfo) :
    (reduce l).totalFeatures = (l.map tileInfo.Features).sum % U64MOD := by
  rw [reduce, foldl_step_totalFeatures]
  have h0 : initState.totalFeatures = 0 := rfl
  rw [h0, foldl_addU64 _ 0 U64MOD_pos]
  simp

/-! ### The layer map, per key -/

theorem lookupLayer_updateLayer_self (x y : Int) (li : layerInfo) :
    ∀ (m : List (ByteStr × layerCount)),
      lookupLayer (updateLayer x y li m) li.Name
        = layerStep (lookupLayer m li.Name) (li.Count, x, y) := by
  intro m
  induction m with
  | nil => simp [updateLayer, lookupLayer, layerStep]
  | cons kc m ih =>
    obtain ⟨k, c⟩ := kc
    by_cases h : k = li.Name
    · subst h
      simp [updateLayer, lookupLayer, layerStep]
    · simp [updateLayer, lookupLayer, h, ih]

theorem lookupLayer_updateLayer_other (x y : Int) (li : layerInfo) (nm : ByteStr)
    (h : nm ≠ li.Name) :
    ∀ (m : List (ByteStr × layerCount)),
      lookupLayer (updateLayer x y li m) nm = lookupLayer m nm := by
  have hne : ¬ li.Name = nm := fun e => h e.symm
  intro m
  induction m with
  | nil =>
    simp [updateLayer, lookupLayer, hne]
  | cons kc m ih =>
    obtain ⟨k, c⟩ := kc
    by_cases hk : k = li.Name
    · subst hk
      simp [updateLayer, lookupLayer, hne]
    · simp [updateLayer, lookupLayer, hk, ih]

/-- The filter selecting the samples of name `nm` out of one tile's
decoded layer list. -/
def pickSamples (nm : ByteStr) (x y : Int) (L : List layerInfo) : List (Nat × Int × Int) :=
  L.filterMap (fun li => if li.Name = nm then some (li.Count, x, y) else none)

theorem lookup_foldLayers (x y : Int) (nm : ByteStr) :
    ∀ (L : List layerInfo) (m : List (ByteStr × layerCount)),
      lookupLayer (L.foldl (fun m li => updateLayer x y li m) m) nm
        = (pickSamples nm x y L).foldl layerStep (lookupLayer m nm) := by
  intro L
  induction L with
  | nil => intro m; rfl
  | cons li L ih =>
    intro m
    rw [List.foldl_cons, ih]
    by_cases h : li.Name = nm
    · subst h
      rw [lookupLayer_updateLayer_self]
      simp [pickSamples, List.filterMap_cons]
    · rw [lookupLayer_updateLayer_other x y li nm (fun e => h e.symm)]
      simp [pickSamples, List.filterMap_cons, h]

theorem step_lookup (s : AggState) (i : tileInfo) (nm : ByteStr) :
    lookupLayer (step s i).layer2CountMap nm
      = (pickSamples nm i.X i.Y i.Layers).foldl layerStep
          (lookupLayer s.layer2CountMap nm) := by
  rw [step_layer2CountMap, lookup_foldLayers]

theorem layerSamples_cons (nm : ByteStr) (i : tileInfo) (l : List tileInfo) :
    layerSamples nm (i :: l) = pickSamples nm i.X i.Y i.Layers ++ layerSamples nm l := by
  simp [layerSamples, pickSamples]

theorem foldl_step_lookup (nm : ByteStr) : ∀ (l : List tileInfo) (s : AggState),
    lookupLayer (l.foldl step s).layer2CountMap nm
      = (layerSamples nm l).foldl layerStep (lookupLayer s.layer2CountMap nm) := by
  intro l
  induction l with
  | nil => intro s; simp [layerSamples]
  | cons i l ih =>
    intro s
    rw [List.foldl_cons, ih (step s i), step_lookup, layerSamples_cons, List.foldl_append]

theorem reduce_lookup (nm : ByteStr) (l : List tileInfo) :
    lookupLayer (reduce l).layer2CountMap nm
      = (layerSamples nm l).foldl layerStep none := by
  rw [reduce, foldl_step_lookup]
  rfl

/-! ### Per-cell facts about `layerStep` folds -/

/-- The covered-tile counter of an optional cell. -/
def tileOfCell (o : Option layerCount) : Nat :=
  match o with
  | none => 0
  | some c => c.tile

theorem updateLayerCount_tile (x y : Int) (cnt : Nat) (c : layerCount) :
    (updateLayerCount x y cnt c).tile = c.tile + 1 := by
  simp only [updateLayerCount]
  split_ifs <;> rfl

theorem tileOfCell_foldl_layerStep (ps : List (Nat × Int × Int)) :
    ∀ (o : Option layerCount),
      tileOfCell (ps.foldl layerStep o) = tileOfCell o + ps.length := by
  induction ps with
  | nil => intro o; simp
  | cons p ps ih =>
    intro o
    rw [List.foldl_cons, ih (layerStep o p)]
    cases o with
    | none =>
      simp [layerStep, tileOfCell, seedLayerCount, List.length_cons]
      omega
    | some c =>
      simp [layerStep, tileOfCell, updateLayerCount_tile, List.length_cons]
      omega

theorem foldl_layerStep_none_eq_none_iff (ps : List (Nat × Int × Int)) :
    ps.foldl layerStep none = none ↔ ps = [] := by
  cases ps with
  | nil => simp
  | cons p ps =>
    simp only [List.foldl_cons]
    constructor
    · intro h
      have ht := tileOfCell_foldl_layerStep ps (layerStep none p)
      rw [h] at ht
      simp [tileOfCell, layerStep, seedLayerCount] at ht
      exact absurd ht (by omega)
    · intro h
      cases h

/-- Folding further samples of the same name into an existing cell. -/
def foldSamples (c : layerCount) (ps : List (Nat × Int × Int)) : layerCount :=
  ps.foldl (fun c p => updateLayerCount p.2.1 p.2.2 p.1 c) c

theorem foldl_layerStep_some (ps : List (Nat × Int × Int)) :
    ∀ (c : layerCount), ps.foldl layerStep (some c) = some (foldSamples c ps) := by
  induction ps with
  | nil => intro c; rfl
  | cons p ps ih =>
    intro c
    rw [List.foldl_cons]
    show ps.foldl layerStep (some (updateLayerCount p.2.1 p.2.2 p.1 c)) = _
    rw [ih]
    simp [foldSamples]

theorem updateLayerCount_min_triple (x y : Int) (cnt : Nat) (c : layerCount) :
    ((updateLayerCount x y cnt c).min, (updateLayerCount x y cnt c).minAtX,
      (updateLayerCount x y cnt c).minAtY)
      = if cnt < c.min then (cnt, x, y) else (c.min, c.minAtX, c.minAtY) := by
  simp only [updateLayerCount]
  split_ifs <;> rfl

theorem updateLayerCount_max_triple (x y : Int) (cnt : Nat) (c : layerCount) :
    ((updateLayerCount x y cnt c).max, (updateLayerCount x y cnt c).maxAtX,
      (updateLayerCount x y cnt c).maxAtY)
      = if cnt > c.max then (cnt, x, y) else (c.max, c.maxAtX, c.maxAtY) := by
  simp only [updateLayerCount]
  split_ifs <;> rfl

theorem foldSamples_min_triple (ps : List (Nat × Int × Int)) :
    ∀ (c : layerCount),
      ((foldSamples c ps).min, (foldSamples c ps).minAtX, (foldSamples c ps).minAtY)
        = extMin Prod.fst (fun p => p.2.1) (fun p => p.2.2) c.min c.minAtX c.minAtY ps := by
  induction ps with
  | nil => intro c; rfl
  | cons p ps ih =>
    intro c
    have hstep : foldSamples c (p :: ps) = foldSamples (updateLayerCount p.2.1 p.2.2 p.1 c) ps := by
      simp [foldSamples]
    rw [hstep, ih]
    have h := updateLayerCount_min_triple p.2.1 p.2.2 p.1 c
    by_cases hlt : p.1 < c.min
    · rw [if_pos hlt] at h
      injection h with h1 h23; injection h23 with h2 h3
      simp [extMin, hlt, h1, h2, h3]
    · rw [if_neg hlt] at h
      injection h with h1 h23; injection h23 with h2 h3
      simp [extMin, hlt, h1, h2, h3]

theorem foldSamples_max_triple (ps : List (Nat × Int × Int)) :
    ∀ (c : layerCount),
      ((foldSamples c ps).max, (foldSamples c ps).maxAtX, (foldSamples c ps).maxAtY)
        = extMax Prod.fst (fun p => p.2.1) (fun p => p.2.2) c.max c.maxAtX c.maxAtY ps := by
  induction ps with
  | nil => intro c; rfl
  | cons p ps ih =>
    intro c
    have hstep : foldSamples c (p :: ps) = foldSamples (updateLayerCount p.2.1 p.2.2 p.1 c) ps := by
      simp [foldSamples]
    rw [hstep, ih]
    have h := updateLayerCount_max_triple p.2.1 p.2.2 p.1 c
    by_cases hlt : p.1 > c.max
    · rw [if_pos hlt] at h
      injection h with h1 h23; injection h23 with h2 h3
      simp [extMax, hlt, h1, h2, h3]
    · rw [if_neg hlt] at h
      injection h with h1 h23; injection h23 with h2 h3
      simp [extMax, hlt, h1, h2, h3]

/-- A finalized layer cell's minimum is the first-seen minimal sample:
its value and location come from the first sample in feed order
attaining the layer's minimal count, all earlier samples being strictly
larger. -/
theorem reduce_layer_min_first (nm : ByteStr) (l : List tileInfo) (c : layerCount)
    (h : lookupLayer (reduce l).layer2CountMap nm = some c) :
    ∃ pre p post, layerSamples nm l = pre ++ p :: post ∧
      c.min = p.1 ∧ c.minAtX = p.2.1 ∧ c.minAtY = p.2.2 ∧
      ∀ q ∈ pre, p.1 < q.1 := by
  rw [reduce_lookup] at h
  rcases hsam : layerSamples nm l with _ | ⟨p0, ps⟩
  · rw [hsam] at h
    cases h
  · rw [hsam, List.foldl_cons] at h
    have hseed : layerStep none p0 = some (seedLayerCount p0.2.1 p0.2.2 p0.1) := rfl
    rw [hseed, foldl_layerStep_some] at h
    have hc : c = foldSamples (seedLayerCount p0.2.1 p0.2.2 p0.1) ps := by
      injection h with h1
      exact h1.symm
    have htr := foldSamples_min_triple ps (seedLayerCount p0.2.1 p0.2.2 p0.1)
    rcases extMin_spec Prod.fst (fun p => p.2.1) (fun p => p.2.2) ps p0.1 p0.2.1 p0.2.2
      with ⟨heq, _⟩ | ⟨pre, q, post, hsp, heq, hlt, hpre⟩
    · have htriple := htr.trans heq
      injection htriple with t1 t23
      injection t23 with t2 t3
      exact ⟨[], p0, ps, by simp, by rw [hc]; exact t1, by rw [hc]; exact t2,
        by rw [hc]; exact t3, by simp⟩
    · have htriple := htr.trans heq
      injection htriple with t1 t23
      injection t23 with t2 t3
      refine ⟨p0 :: pre, q, post, by simp [hsp], by rw [hc]; exact t1, by rw [hc]; exact t2,
        by rw [hc]; exact t3, ?_⟩
      intro b hb
      rcases List.mem_cons.mp hb with rfl | hb
      · exact hlt
      · exact hpre b hb

/-- A finalized layer cell's maximum is the first-seen maximal sample,
dually. -/
theorem reduce_layer_max_first (nm : ByteStr) (l : List tileInfo) (c : layerCount)
    (h : lookupLayer (reduce l).layer2CountMap nm = some c) :
    ∃ pre p post, layerSamples nm l = pre ++ p :: post ∧
      c.max = p.1 ∧ c.maxAtX = p.2.1 ∧ c.maxAtY = p.2.2 ∧
      ∀ q ∈ pre, q.1 < p.1 := by
  rw [reduce_lookup] at h
  rcases hsam : layerSamples nm l with _ | ⟨p0, ps⟩
  · rw [hsam] at h
    cases h
  · rw [hsam, List.foldl_cons] at h
    have hseed : layerStep none p0 = some (seedLayerCount p0.2.1 p0.2.2 p0.1) := rfl
    rw [hseed, foldl_layerStep_some] at h
    have hc : c = foldSamples (seedLayerCount p0.2.1 p0.2.2 p0.1) ps := by
      injection h with h1
      exact h1.symm
    have htr := foldSamples_max_triple ps (seedLayerCount p0.2.1 p0.2.2 p0.1)
    rcases extMax_spec Prod.fst (fun p => p.2.1) (fun p => p.2.2) ps p0.1 p0.2.1 p0.2.2
      with ⟨heq, _⟩ | ⟨pre, q, post, hsp, heq, hlt, hpre⟩
    · have htriple := htr.trans heq
      injection htriple with t1 t23
      injection t23 with t2 t3
      exact ⟨[], p0, ps, by simp, by rw [hc]; exact t1, by rw [hc]; exact t2,
        by rw [hc]; exact t3, by simp⟩
    · have htriple := htr.trans heq
      injection htriple with t1 t23
      injection t23 with t2 t3
      refine ⟨p0 :: pre, q, post, by simp [hsp], by rw [hc]; exact t1, by rw [hc]; exact t2,
        by rw [hc]; exact t3, ?_⟩
      intro b hb
      rcases List.mem_cons.mp hb with rfl | hb
      · exact hlt
      · exact hpre b hb

/-! ### Keys of the layer map -/

theorem keysOf_nil : keysOf [] = [] := rfl

theorem keysOf_cons (k : ByteStr) (c : layerCount) (m : List (ByteStr × layerCount)) :
    keysOf ((k, c) :: m) = k :: keysOf m := rfl

theorem keysOf_updateLayer (x y : Int) (li : layerInfo) :
    ∀ (m : List (ByteStr × layerCount)),
      keysOf (updateLayer x y li m)
        = if li.Name ∈ keysOf m then keysOf m else keysOf m ++ [li.Name] := by
  intro m
  induction m with
  | nil => simp [updateLayer, keysOf]
  | cons kc m ih =>
    obtain ⟨k, c⟩ := kc
    by_cases h : k = li.Name
    · subst h
      simp [updateLayer, keysOf_cons]
    · by_cases h2 : li.Name ∈ keysOf m
      · simp [updateLayer, h, keysOf_cons, ih, h2, Ne.symm h]
      · simp [updateLayer, h, keysOf_cons, ih, h2, Ne.symm h]

theorem mem_keysOf_updateLayer (x y : Int) (li : layerInfo) (nm : ByteStr)
    (m : List (ByteStr × layerCount)) :
    nm ∈ keysOf (updateLayer x y li m) ↔ nm = li.Name ∨ nm ∈ keysOf m := by
  rw [keysOf_updateLayer]
  by_cases h : li.Name ∈ keysOf m
  · rw [if_pos h]
    constructor
    · exact fun hm => Or.inr hm
    · rintro (rfl | hm)
      · exact h
      · exact hm
  · rw [if_neg h]
    simp [List.mem_append, or_comm]

theorem nodup_keysOf_updateLayer (x y : Int) (li : layerInfo)
    (m : List (ByteStr × layerCount)) (h : (keysOf m).Nodup) :
    (keysOf (updateLayer x y li m)).Nodup := by
  rw [keysOf_updateLayer]
  by_cases hm : li.Name ∈ keysOf m
  · rw [if_pos hm]
    exact h
  · rw [if_neg hm]
    simp [List.nodup_append, h, hm]

theorem nodup_keysOf_foldLayers (x y : Int) :
    ∀ (L : List layerInfo) (m : List (ByteStr × layerCount)), (keysOf m).Nodup →
      (keysOf (L.foldl (fun m li => updateLayer x y li m) m)).Nodup := by
  intro L
  induction L with
  | nil => intro m h; exact h
  | cons li L ih =>
    intro m h
    rw [List.foldl_cons]
    exact ih _ (nodup_keysOf_updateLayer x y li m h)

theorem mem_keysOf_foldLayers (x y : Int) (nm : ByteStr) :
    ∀ (L : List layerInfo) (m : List (ByteStr × layerCount)),
      nm ∈ keysOf (L.foldl (fun m li => updateLayer x y li m) m)
        ↔ nm ∈ keysOf m ∨ ∃ li ∈ L, li.Name = nm := by
  intro L
  induction L with
  | nil => intro m; simp
  | cons li L ih =>
    intro m
    rw [List.foldl_cons, ih, mem_keysOf_updateLayer]
    constructor
    · rintro ((rfl | hm) | ⟨lj, hlj, rfl⟩)
      · exact Or.inr ⟨li, by simp⟩
      · exact Or.inl hm
      · exact Or.inr ⟨lj, by simp [hlj]⟩
    · rintro (hm | ⟨lj, hlj, rfl⟩)
      · exact Or.inl (Or.inr hm)
      · rcases List.mem_cons.mp hlj with rfl | hlj
        · exact Or.inl (Or.inl rfl)
        · exact Or.inr ⟨lj, hlj, rfl⟩

theorem nodup_keysOf_foldl_step :
    ∀ (l : List tileInfo) (s : AggState), (keysOf s.layer2CountMap).Nodup →
      (keysOf (l.foldl step s).layer2CountMap).Nodup := by
  intro l
  induction l with
  | nil => intro s h; exact h
  | cons i l ih =>
    intro s h
    rw [List.foldl_cons]
    refine ih (step s i) ?_
    rw [step_layer2CountMap]
    exact nodup_keysOf_foldLayers i.X i.Y i.Layers s.layer2CountMap h

theorem nodup_keysOf_reduce (l : List tileInfo) :
    (keysOf (reduce l).layer2CountMap).Nodup :=
  nodup_keysOf_foldl_step l initState (by simp [initState, keysOf])

theorem mem_keysOf_foldl_step (nm : ByteStr) :
    ∀ (l : List tileInfo) (s : AggState),
      nm ∈ keysOf (l.foldl step s).layer2CountMap
        ↔ nm ∈ keysOf s.layer2CountMap ∨ ∃ i ∈ l, ∃ li ∈ i.Layers, li.Name = nm := by
  intro l
  induction l with
  | nil => intro s; simp
  | cons i l ih =>
    intro s
    rw [List.foldl_cons, ih (step s i), step_layer2CountMap,
      mem_keysOf_foldLayers]
    constructor
    · rintro ((hm | ⟨li, hli, rfl⟩) | ⟨j, hj, li, hli, rfl⟩)
      · exact Or.inl hm
      · exact Or.inr ⟨i, by simp, li, hli, rfl⟩
      · exact Or.inr ⟨j, by simp [hj], li, hli, rfl⟩
    · rintro (hm | ⟨j, hj, li, hli, rfl⟩)
      · exact Or.inl (Or.inl hm)
      · rcases List.mem_cons.mp hj with rfl | hj
        · exact Or.inl (Or.inr ⟨li, hli, rfl⟩)
        · exact Or.inr ⟨j, hj, li, hli, rfl⟩

theorem mem_keysOf_reduce (nm : ByteStr) (l : List tileInfo) :
    nm ∈ keysOf (reduce l).layer2CountMap ↔ ∃ i ∈ l, ∃ li ∈ i.Layers, li.Name = nm := by
  rw [reduce, mem_keysOf_foldl_step]
  simp [initState, keysOf]

theorem map_layer_extractCounts (m : List (ByteStr × layerCount)) :
    (extractCounts m).map layerCount.layer = keysOf m := by
  simp only [extractCounts, keysOf, List.map_map]
  rfl

/-! ### The fetcher -/

theorem decodeLayers_fold (layers : List mvtLayer) :
    ∀ (acc : Nat × List layerInfo),
      acc.1 < U64MOD → acc.1 = ((acc.2.map layerInfo.Count).sum) % U64MOD →
      ((layers.foldl
          (fun acc layer =>
            let count := layer.Features.length
            (addU64 acc.1 count, acc.2 ++ [{ Name := layer.Name, Count := count }]))
          acc).1)
        = (((layers.foldl
            (fun acc layer =>
              let count := layer.Features.length
              (addU64 acc.1 count, acc.2 ++ [{ Name := layer.Name, Count := count }]))
            acc).2).map layerInfo.Count).sum % U64MOD := by
  induction layers with
  | nil => intro acc h1 h2; exact h2
  | cons layer layers ih =>
    intro acc h1 h2
    rw [List.foldl_cons]
    refine ih _ (Nat.mod_lt _ U64MOD_pos) ?_
    show addU64 acc.1 layer.Features.length
      = (((acc.2 ++ [({ Name := layer.Name, Count := layer.Features.length } : layerInfo)]).map
          layerInfo.Count).sum) % U64MOD
    rw [List.map_append, List.sum_append, addU64, h2]
    simp [Nat.mod_add_mod]

theorem decodeLayers_spec (layers : List mvtLayer) :
    (decodeLayers layers).1 = (((decodeLayers layers).2).map layerInfo.Count).sum % U64MOD := by
  have h := decodeLayers_fold layers (0, []) U64MOD_pos (by simp)
  exact h

theorem getTileInfo_ok_size (noGzip : Bool)
    (gunzip : List Nat → Except String (List Nat))
    (unmarshal : List Nat → Except String (List mvtLayer))
    (x y : Int) (resp : Response) (info : tileInfo)
    (h : getTileInfo noGzip gunzip unmarshal x y (.ok resp) = .ok info) :
    info.Size = resp.body.length := by
  simp only [getTileInfo] at h
  split at h
  · cases h
  · split at h
    · cases h
    · injection h with h1
      rw [← h1]

theorem getTileInfo_ok_features (noGzip : Bool)
    (gunzip : List Nat → Except String (List Nat))
    (unmarshal : List Nat → Except String (List mvtLayer))
    (x y : Int) (net : Except String Response) (info : tileInfo)
    (h : getTileInfo noGzip gunzip unmarshal x y net = .ok info) :
    info.Features = ((info.Layers.map layerInfo.Count).sum) % U64MOD := by
  cases net with
  | error e => cases h
  | ok resp =>
    simp only [getTileInfo] at h
    split at h
    · cases h
    · split at h
      · cases h
      · injection h with h1
        rw [← h1]
        exact decodeLayers_spec _

/-! ### Claims -/

/-- C10: if the reducer consumes zero results, the finalized state is
exactly the initialization sentinels: `minSize` and `minFeatures` are
`2 ^ 64 - 1` (`math.MaxUint64`), `maxSize` and `maxFeatures` are `0`,
every extremum coordinate is `(0, 0)`, and the layer mapping is
empty. -/
theorem c10_empty_stream_sentinels :
    (reduce []).minTileSize = 2 ^ 64 - 1 ∧ (reduce []).minFeatures = 2 ^ 64 - 1 ∧
    (reduce []).maxTileSize = 0 ∧ (reduce []).maxFeatures = 0 ∧
    (reduce []).minTileSizeAtX = 0 ∧ (reduce []).minTileSizeAtY = 0 ∧
    (reduce []).maxTileSizeAtX = 0 ∧ (reduce []).maxTileSizeAtY = 0 ∧
    (reduce []).minFeaturesAtX = 0 ∧ (reduce []).minFeaturesAtY = 0 ∧
    (reduce []).maxFeaturesAtX = 0 ∧ (reduce []).maxFeaturesAtY = 0 ∧
    (reduce []).layer2CountMap = [] :=
  ⟨rfl, rfl, rfl, rfl, rfl, rfl, rfl, rfl, rfl, rfl, rfl, rfl, rfl⟩

/-- C8: after consuming any stream, every fed byte size lies between
the finalized `minSize` and `maxSize` inclusive, and every fed feature
count between `minFeatures` and `maxFeatures` inclusive. -/
theorem c8_extrema_bound_all (l : List tileInfo) (i : tileInfo) (h : i ∈ l) :
    (reduce l).minTileSize ≤ i.Size ∧ i.Size ≤ (reduce l).maxTileSize ∧
    (reduce l).minFeatures ≤ i.Features ∧ i.Features ≤ (reduce l).maxFeatures := by
  refine ⟨?_, ?_, ?_, ?_⟩
  · have hsim := foldl_step_min l initState
    have h1 : (l.foldl step initState).minTileSize
        = (extMin (fun i => i.Size) (fun i => i.X) (fun i => i.Y)
            initState.minTileSize initState.minTileSizeAtX initState.minTileSizeAtY l).1 :=
      congrArg Prod.fst hsim
    show (l.foldl step initState).minTileSize ≤ i.Size
    rw [h1]
    exact extMin_fst_le_mem _ _ _ l _ _ _ i h
  · have hsim := foldl_step_max l initState
    have h1 : (l.foldl step initState).maxTileSize
        = (extMax (fun i => i.Size) (fun i => i.X) (fun i => i.Y)
            initState.maxTileSize initState.maxTileSizeAtX initState.maxTileSizeAtY l).1 :=
      congrArg Prod.fst hsim
    show i.Size ≤ (l.foldl step initState).maxTileSize
    rw [h1]
    exact extMax_fst_ge_mem _ _ _ l _ _ _ i h
  · have hsim := foldl_step_minFeatures l initState
    have h1 : (l.foldl step initState).minFeatures
        = (extMin (fun i => i.Features) (fun i => i.X) (fun i => i.Y)
            initState.minFeatures initState.minFeaturesAtX initState.minFeaturesAtY l).1 :=
      congrArg Prod.fst hsim
    show (l.foldl step initState).minFeatures ≤ i.Features
    rw [h1]
    exact extMin_fst_le_mem _ _ _ l _ _ _ i h
  · have hsim := foldl_step_maxFeatures l initState
    have h1 : (l.foldl step initState).maxFeatures
        = (extMax (fun i => i.Features) (fun i => i.X) (fun i => i.Y)
            initState.maxFeatures initState.maxFeaturesAtX initState.maxFeaturesAtY l).1 :=
      congrArg Prod.fst hsim
    show i.Features ≤ (l.foldl step initState).maxFeatures
    rw [h1]
    exact extMax_fst_ge_mem _ _ _ l _ _ _ i h

/-- The feed used to witness C8. -/
def c8Feed : List tileInfo :=
  [ { X := 0, Y := 0, Size := 100, Features := 5, Layers := [] },
    { X := 1, Y := 0, Size := 300, Features := 2, Layers := [] } ]

/-- The member of `c8Feed` at which the C8 bound is witnessed. -/
def c8Elem : tileInfo :=
  { X := 1, Y := 0, Size := 300, Features := 2, Layers := [] }

/-- C8 witness: the bound instantiated on a concrete two-result feed. -/
theorem c8_extrema_bound_all_witness :
    c8Elem ∈ c8Feed ∧
    ((reduce c8Feed).minTileSize ≤ c8Elem.Size ∧ c8Elem.Size ≤ (reduce c8Feed).maxTileSize ∧
      (reduce c8Feed).minFeatures ≤ c8Elem.Features ∧
      c8Elem.Features ≤ (reduce c8Feed).maxFeatures) :=
  ⟨by decide, c8_extrema_bound_all c8Feed c8Elem (by decide)⟩

/-- C4: the finalized totals are the sums of the fed values
(`uint64` sums, so exact whenever the mathematical sum fits in 64
bits), and the totals are invariant under permutation of the feed
order. -/
theorem c4_totals_are_sums (l : List tileInfo) :
    ((l.map tileInfo.Size).sum < U64MOD →
      (reduce l).totalTileSize = (l.map tileInfo.Size).sum) ∧
    ((l.map tileInfo.Features).sum < U64MOD →
      (reduce l).totalFeatures = (l.map tileInfo.Features).sum) ∧
    (∀ l2, l.Perm l2 →
      (reduce l).totalTileSize = (reduce l2).totalTileSize ∧
      (reduce l).totalFeatures = (reduce l2).totalFeatures) := by
  refine ⟨?_, ?_, ?_⟩
  · intro h
    rw [reduce_totalTileSize, Nat.mod_eq_of_lt h]
  · intro h
    rw [reduce_totalFeatures, Nat.mod_eq_of_lt h]
  · intro l2 hperm
    constructor
    · rw [reduce_totalTileSize, reduce_totalTileSize, (hperm.map tileInfo.Size).sum_eq]
    · rw [reduce_totalFeatures, reduce_totalFeatures, (hperm.map tileInfo.Features).sum_eq]

/-- The feed used to witness C4. -/
def c4Feed : List tileInfo :=
  [ { X := 0, Y := 0, Size := 100, Features := 5, Layers := [] },
    { X := 1, Y := 0, Size := 300, Features := 2, Layers := [] } ]

/-- C4 witness: the sum invariant instantiated on a concrete feed whose
sums fit in 64 bits. -/
theorem c4_totals_are_sums_witness :
    (c4Feed.map tileInfo.Size).sum < U64MOD ∧
    (reduce c4Feed).totalTileSize = (c4Feed.map tileInfo.Size).sum :=
  ⟨by decide, (c4_totals_are_sums c4Feed).1 (by decide)⟩

/-- C2: for every successful fetch, the recorded byte size is the
length of the body as received over the network — measured before any
decompression, so it is the compressed length whenever the server used
gzip, and the decompressed bytes (fed only to the decoder) cannot
affect it. -/
theorem c2_wire_byte_size (noGzip : Bool)
    (gunzip : List Nat → Except String (List Nat))
    (unmarshal : List Nat → Except String (List mvtLayer))
    (x y : Int) (resp : Response) (info : tileInfo)
    (h : getTileInfo noGzip gunzip unmarshal x y (.ok resp) = .ok info) :
    info.Size = resp.body.length :=
  getTileInfo_ok_size noGzip gunzip unmarshal x y resp info h

/-- The gzip-encoded response used to witness C2: 3 wire bytes. -/
def c2Resp : Response :=
  { contentEncoding := gzipBytes, body := [1, 2, 3] }

/-- The decompressor used to witness C2: returns 5 bytes, more than
were on the wire. -/
def c2Gunzip : List Nat → Except String (List Nat) := fun _ => Except.ok [9, 9, 9, 9, 9]

/-- The decoder used to witness C2. -/
def c2Unmarshal : List Nat → Except String (List mvtLayer) := fun _ =>
  Except.ok [{ Name := [97], Features := [(), ()] }]

/-- The tile record produced in the C2 witness. -/
def c2Info : tileInfo :=
  { X := 0, Y := 0, Size := 3, Features := 2, Layers := [{ Name := [97], Count := 2 }] }

/-- C2 witness: a gzip-encoded response of 3 wire bytes whose
decompressor returns 5 bytes still records size 3. -/
theorem c2_wire_byte_size_witness :
    getTileInfo false c2Gunzip c2Unmarshal 0 0 (Except.ok c2Resp) = Except.ok c2Info
    ∧ c2Info.Size = c2Resp.body.length :=
  ⟨by rfl, c2_wire_byte_size false c2Gunzip c2Unmarshal 0 0 c2Resp c2Info (by rfl)⟩

/-- C5: every successfully fetched `tileInfo` satisfies the invariant
that its total feature count is the sum of its per-layer counts
(`uint64` sums, exact whenever the mathematical sum fits in 64
bits). -/
theorem c5_total_features_invariant (noGzip : Bool)
    (gunzip : List Nat → Except String (List Nat))
    (unmarshal : List Nat → Except String (List mvtLayer))
    (x y : Int) (net : Except String Response) (info : tileInfo)
    (h : getTileInfo noGzip gunzip unmarshal x y net = .ok info)
    (hsum : (info.Layers.map layerInfo.Count).sum < U64MOD) :
    info.Features = (info.Layers.map layerInfo.Count).sum := by
  rw [getTileInfo_ok_features noGzip gunzip unmarshal x y net info h, Nat.mod_eq_of_lt hsum]

/-- The decoder used to witness C5: two layers with 2 and 1 features. -/
def c5Unmarshal : List Nat → Except String (List mvtLayer) := fun _ =>
  Except.ok [{ Name := [97], Features := [(), ()] }, { Name := [98], Features := [()] }]

/-- The tile record produced in the C5 witness. -/
def c5Info : tileInfo :=
  { X := 4, Y := 5, Size := 1, Features := 3,
    Layers := [{ Name := [97], Count := 2 }, { Name := [98], Count := 1 }] }

/-- C5 witness: the invariant instantiated on a concrete successful
fetch. -/
theorem c5_total_features_invariant_witness :
    getTileInfo true (fun d => Except.ok d) c5Unmarshal 4 5
        (Except.ok { contentEncoding := [], body := [7] }) = Except.ok c5Info
    ∧ (c5Info.Layers.map layerInfo.Count).sum < U64MOD
    ∧ c5Info.Features = (c5Info.Layers.map layerInfo.Count).sum :=
  ⟨by rfl, by decide,
    c5_total_features_invariant true (fun d => Except.ok d) c5Unmarshal 4 5
      (Except.ok { contentEncoding := [], body := [7] }) c5Info (by rfl) (by decide)⟩

/-- The two coordinates scheduled in the C3 failing run. -/
def c3Coords : List (Int × Int) := [(0, 0), (1, 1)]

/-- The stream contents the reducer drains in the C3 failing run: fetch
`(0, 0)` delivered its result, fetch `(1, 1)` panicked and delivered
nothing — but its deferred `wg.Done()` still ran, so `main` can pass
`wg.Wait()` and `close(ch)` while the panic is still unwinding. -/
def c3Delivered : List tileInfo :=
  [ { X := 0, Y := 0, Size := 7, Features := 1, Layers := [] } ]

/-- C3: evaluation of the reducer at the failing run.  The reducer loop
is `for info := range ch` (`main.go`, line 115): it terminates on
channel closure, not after counting `tileCount` results, and nothing in
the fold checks the consumed count against the scheduled count.  So
when one of the two scheduled fetches panics, the reducer still folds
the one delivered result into a complete, fully-formed finalized
aggregate (whose printed header nevertheless carries the precomputed
`tileCount = 2`, `main.go` line 168) — one result short of the
scheduled two. -/
theorem c3_partial_finalize_on_failure :
    c3Delivered.length < c3Coords.length
    ∧ c3Coords.length = 2 ∧ c3Delivered.length = 1
    ∧ (reduce c3Delivered).minTileSize = 7
    ∧ (reduce c3Delivered).minTileSizeAtX = 0 ∧ (reduce c3Delivered).minTileSizeAtY = 0
    ∧ (reduce c3Delivered).maxTileSize = 7
    ∧ (reduce c3Delivered).totalTileSize = 7
    ∧ (reduce c3Delivered).minFeatures = 1
    ∧ (reduce c3Delivered).maxFeatures = 1
    ∧ (reduce c3Delivered).totalFeatures = 1
    ∧ (reduce c3Delivered).layer2CountMap = [] := by
  decide

/-! ### C6: covered-tile counts -/

theorem pickSamples_eq_nil_of_not_mem (nm : ByteStr) (x y : Int) :
    ∀ (L : List layerInfo), nm ∉ L.map layerInfo.Name → pickSamples nm x y L = [] := by
  intro L
  induction L with
  | nil => intro h; rfl
  | cons li L ih =>
    intro h
    have h1 : ¬ li.Name = nm := by
      intro e
      exact h (by simp [e])
    have h2 : nm ∉ L.map layerInfo.Name := by
      intro hm
      exact h (by simp [hm])
    simp [pickSamples, List.filterMap_cons, h1]
    simpa [pickSamples] using ih h2

theorem pickSamples_length_le_one (nm : ByteStr) (x y : Int) :
    ∀ (L : List layerInfo), (L.map layerInfo.Name).Nodup →
      (pickSamples nm x y L).length ≤ 1 := by
  intro L
  induction L with
  | nil => intro h; simp [pickSamples]
  | cons li L ih =>
    intro h
    rw [List.map_cons, List.nodup_cons] at h
    by_cases he : li.Name = nm
    · have hnil : pickSamples nm x y L = [] := by
        refine pickSamples_eq_nil_of_not_mem nm x y L ?_
        rw [← he]
        exact h.1
      have hcons : pickSamples nm x y (li :: L) = (li.Count, x, y) :: pickSamples nm x y L := by
        simp [pickSamples, List.filterMap_cons, he]
      rw [hcons, hnil]
      simp
    · have := ih h.2
      simpa [pickSamples, List.filterMap_cons, he] using this

theorem layerSamples_length_le (nm : ByteStr) :
    ∀ (l : List tileInfo), (∀ i ∈ l, (i.Layers.map layerInfo.Name).Nodup) →
      (layerSamples nm l).length ≤ l.length := by
  intro l
  induction l with
  | nil => intro h; simp [layerSamples]
  | cons i l ih =>
    intro h
    rw [layerSamples_cons, List.length_append, List.length_cons]
    have h1 : (pickSamples nm i.X i.Y i.Layers).length ≤ 1 :=
      pickSamples_length_le_one nm i.X i.Y i.Layers (h i (by simp))
    have h2 : (layerSamples nm l).length ≤ l.length :=
      ih (fun j hj => h j (by simp [hj]))
    omega

/-- The duplicate-name feed that refutes C6 as stated: one tile whose
decoded layer list carries the same name twice. -/
def c6DupFeed : List tileInfo :=
  [ { X := 0, Y := 0, Size := 10, Features := 3,
      Layers := [{ Name := [97], Count := 1 }, { Name := [97], Count := 2 }] } ]

/-- C6 counterexample: after consuming `c6DupFeed` (a single tile), the
layer named `[97]` has `coveredTileCount = 2`, although only 1 tile was
processed — the claimed bound `coveredTileCount ≤ tileCount` fails,
because the per-sample loop increments the counter once per sample, not
once per tile. -/
theorem c6_counterexample :
    Option.map layerCount.tile (lookupLayer (reduce c6DupFeed).layer2CountMap [97]) = some 2
    ∧ c6DupFeed.length = 1
    ∧ ¬ (2 ≤ 1) :=
  ⟨by decide, by decide, by decide⟩

/-- C6 amended: provided each fed result's decoded layer names are
pairwise distinct (a tile does not list the same layer twice — the
normal MVT shape), every finalized layer's `coveredTileCount` is at
most the number of tiles processed. -/
theorem c6_cover_le_tiles (l : List tileInfo)
    (hl : ∀ i ∈ l, (i.Layers.map layerInfo.Name).Nodup)
    (nm : ByteStr) (c : layerCount)
    (h : lookupLayer (reduce l).layer2CountMap nm = some c) :
    c.tile ≤ l.length := by
  rw [reduce_lookup] at h
  have htile : c.tile = (layerSamples nm l).length := by
    have ht := tileOfCell_foldl_layerStep (layerSamples nm l) none
    rw [h] at ht
    simpa [tileOfCell] using ht
  rw [htile]
  exact layerSamples_length_le nm l hl

/-- The duplicate-free feed used to witness the amended C6. -/
def c6Feed : List tileInfo :=
  [ { X := 0, Y := 0, Size := 1, Features := 2, Layers := [{ Name := [97], Count := 2 }] } ]

/-- C6 witness: the amended bound instantiated on a concrete
duplicate-free feed. -/
theorem c6_cover_le_tiles_witness :
    (∀ i ∈ c6Feed, (i.Layers.map layerInfo.Name).Nodup)
    ∧ lookupLayer (reduce c6Feed).layer2CountMap [97]
        = some { layer := [], min := 2, minAtX := 0, minAtY := 0,
                 max := 2, maxAtX := 0, maxAtY := 0, total := 2, tile := 1 }
    ∧ ({ layer := [], min := 2, minAtX := 0, minAtY := 0,
         max := 2, maxAtX := 0, maxAtY := 0, total := 2, tile := 1 } : layerCount).tile
        ≤ c6Feed.length :=
  ⟨by decide, by decide,
    c6_cover_le_tiles c6Feed (by decide) [97] _ (by decide)⟩

/-- C7: a layer sample whose name is unseen creates an aggregate seeded
with the sample's count as min, max and total, the current tile's
coordinate as both locations, and covered count 1; a sample of a seen
name updates that aggregate under strict comparisons and adds to total
and covered count. -/
theorem c7_layer_seed_and_update (x y : Int) (li : layerInfo)
    (m : List (ByteStr × layerCount)) :
    (lookupLayer m li.Name = none →
      lookupLayer (updateLayer x y li m) li.Name
        = some { layer := [], min := li.Count, minAtX := x, minAtY := y,
                 max := li.Count, maxAtX := x, maxAtY := y, total := li.Count, tile := 1 }) ∧
    (∀ c, lookupLayer m li.Name = some c →
      lookupLayer (updateLayer x y li m) li.Name
        = some { layer := c.layer,
                 min := if li.Count < c.min then li.Count else c.min,
                 minAtX := if li.Count < c.min then x else c.minAtX,
                 minAtY := if li.Count < c.min then y else c.minAtY,
                 max := if li.Count > c.max then li.Count else c.max,
                 maxAtX := if li.Count > c.max then x else c.maxAtX,
                 maxAtY := if li.Count > c.max then y else c.maxAtY,
                 total := addU64 c.total li.Count,
                 tile := c.tile + 1 }) := by
  constructor
  · intro h
    rw [lookupLayer_updateLayer_self, h]
    rfl
  · intro c h
    rw [lookupLayer_updateLayer_self, h]
    show some (updateLayerCount x y li.Count c) = _
    congr 1
    simp only [updateLayerCount]
    split_ifs <;> rfl

/-- C7 witness: seeding instantiated at a concrete unseen name, and the
update instantiated at a concrete seen name. -/
theorem c7_layer_seed_and_update_witness :
    lookupLayer [] ([97] : ByteStr) = none
    ∧ lookupLayer (updateLayer 1 2 { Name := [97], Count := 5 } []) [97]
        = some { layer := [], min := 5, minAtX := 1, minAtY := 2,
                 max := 5, maxAtX := 1, maxAtY := 2, total := 5, tile := 1 } :=
  ⟨rfl, (c7_layer_seed_and_update 1 2 { Name := [97], Count := 5 } []).1 rfl⟩

/-! ### C9: the final sorted view -/

instance : IsTotal layerCount (fun a b => a.layer ≤ b.layer) :=
  ⟨fun a b => le_total a.layer b.layer⟩

instance : IsTrans layerCount (fun a b => a.layer ≤ b.layer) :=
  ⟨fun _ _ _ h1 h2 => le_trans h1 h2⟩

/-- C9: the finalized per-layer aggregates come out sorted strictly
ascending by layer name (bytewise ordinal comparison), with exactly one
entry per layer name ever observed in the consumed stream. -/
theorem c9_sorted_unique_layers (l : List tileInfo) :
    ((finalCounts l).map layerCount.layer).Pairwise (fun a b => a < b) ∧
    ∀ nm, (nm ∈ (finalCounts l).map layerCount.layer
      ↔ ∃ i ∈ l, ∃ li ∈ i.Layers, li.Name = nm) := by
  have hperm : (finalCounts l).Perm (extractCounts (reduce l).layer2CountMap) :=
    List.perm_insertionSort _ _
  have hmapperm := hperm.map layerCount.layer
  rw [map_layer_extractCounts] at hmapperm
  have hnodup : ((finalCounts l).map layerCount.layer).Nodup :=
    hmapperm.nodup_iff.mpr (nodup_keysOf_reduce l)
  have hsorted : List.Sorted (fun a b : layerCount => a.layer ≤ b.layer) (finalCounts l) :=
    List.sorted_insertionSort _ _
  have hsorted2 : List.Sorted (fun a b : ByteStr => a ≤ b)
      ((finalCounts l).map layerCount.layer) := List.pairwise_map.mpr hsorted
  constructor
  · exact List.Sorted.lt_of_le hsorted2 hnodup
  · intro nm
    rw [hmapperm.mem_iff, mem_keysOf_reduce]

/-! ### C1: tie-breaking of extremum records -/

/-- The feed that refutes C1 as stated: two results, both with zero
features, at coordinates (5,2) and (9,9). -/
def c1Feed : List tileInfo :=
  [ { X := 5, Y := 2, Size := 10, Features := 0, Layers := [] },
    { X := 9, Y := 9, Size := 20, Features := 0, Layers := [] } ]

/-- C1 counterexample: both fed results carry the finalized extremal
value `maxFeatures = 0`, yet the recorded coordinate is the
initialization sentinel `(0, 0)` — not the coordinate `(5, 2)` of the
result that appeared first in feed order, because `0 > 0` is false and
the `maxFeatures` record, initialized to value `0` at `(0, 0)`, is
never updated at all. -/
theorem c1_counterexample :
    c1Feed.map (fun i => ((i.X, i.Y), i.Features)) = [((5, 2), 0), ((9, 9), 0)]
    ∧ (reduce c1Feed).maxFeatures = 0
    ∧ (reduce c1Feed).maxFeaturesAtX = 0 ∧ (reduce c1Feed).maxFeaturesAtY = 0
    ∧ ¬ (((reduce c1Feed).maxFeaturesAtX, (reduce c1Feed).maxFeaturesAtY) = ((5 : Int), (2 : Int))) := by
  decide

/-- C1 amended: every extremum record updates only under strict `<`/`>`
comparison, so a later result carrying a value equal to the current
extremum never overwrites the recorded value or coordinate (globally
and per layer); whenever a finalized global extremum beats its
initialization sentinel (minima below `2 ^ 64 - 1`, maxima above `0`),
its recorded coordinate is that of the first result in feed order
attaining it, and a finalized layer extremum's coordinate is always
that of the first sample in feed order attaining it. -/
theorem c1_first_seen_wins :
    (∀ (s : AggState) (i : tileInfo), s.minTileSize ≤ i.Size →
      (step s i).minTileSize = s.minTileSize ∧
      (step s i).minTileSizeAtX = s.minTileSizeAtX ∧
      (step s i).minTileSizeAtY = s.minTileSizeAtY) ∧
    (∀ (s : AggState) (i : tileInfo), i.Size ≤ s.maxTileSize →
      (step s i).maxTileSize = s.maxTileSize ∧
      (step s i).maxTileSizeAtX = s.maxTileSizeAtX ∧
      (step s i).maxTileSizeAtY = s.maxTileSizeAtY) ∧
    (∀ (s : AggState) (i : tileInfo), s.minFeatures ≤ i.Features →
      (step s i).minFeatures = s.minFeatures ∧
      (step s i).minFeaturesAtX = s.minFeaturesAtX ∧
      (step s i).minFeaturesAtY = s.minFeaturesAtY) ∧
    (∀ (s : AggState) (i : tileInfo), i.Features ≤ s.maxFeatures →
      (step s i).maxFeatures = s.maxFeatures ∧
      (step s i).maxFeaturesAtX = s.maxFeaturesAtX ∧
      (step s i).maxFeaturesAtY = s.maxFeaturesAtY) ∧
    (∀ (x y : Int) (cnt : Nat) (c : layerCount), c.min ≤ cnt →
      (updateLayerCount x y cnt c).min = c.min ∧
      (updateLayerCount x y cnt c).minAtX = c.minAtX ∧
      (updateLayerCount x y cnt c).minAtY = c.minAtY) ∧
    (∀ (x y : Int) (cnt : Nat) (c : layerCount), cnt ≤ c.max →
      (updateLayerCount x y cnt c).max = c.max ∧
      (updateLayerCount x y cnt c).maxAtX = c.maxAtX ∧
      (updateLayerCount x y cnt c).maxAtY = c.maxAtY) ∧
    (∀ (l : List tileInfo), (reduce l).minTileSize < U64MAX →
      ∃ pre i post, l = pre ++ i :: post ∧
        (reduce l).minTileSize = i.Size ∧
        (reduce l).minTileSizeAtX = i.X ∧ (reduce l).minTileSizeAtY = i.Y ∧
        ∀ j ∈ pre, i.Size < j.Size) ∧
    (∀ (l : List tileInfo), 0 < (reduce l).maxTileSize →
      ∃ pre i post, l = pre ++ i :: post ∧
        (reduce l).maxTileSize = i.Size ∧
        (reduce l).maxTileSizeAtX = i.X ∧ (reduce l).maxTileSizeAtY = i.Y ∧
        ∀ j ∈ pre, j.Size < i.Size) ∧
    (∀ (l : List tileInfo), (reduce l).minFeatures < U64MAX →
      ∃ pre i post, l = pre ++ i :: post ∧
        (reduce l).minFeatures = i.Features ∧
        (reduce l).minFeaturesAtX = i.X ∧ (reduce l).minFeaturesAtY = i.Y ∧
        ∀ j ∈ pre, i.Features < j.Features) ∧
    (∀ (l : List tileInfo), 0 < (reduce l).maxFeatures →
      ∃ pre i post, l = pre ++ i :: post ∧
        (reduce l).maxFeatures = i.Features ∧
        (reduce l).maxFeaturesAtX = i.X ∧ (reduce l).maxFeaturesAtY = i.Y ∧
        ∀ j ∈ pre, j.Features < i.Features) ∧
    (∀ (l : List tileInfo) (nm : ByteStr) (c : layerCount),
      lookupLayer (reduce l).layer2CountMap nm = some c →
      (∃ pre p post, layerSamples nm l = pre ++ p :: post ∧
        c.min = p.1 ∧ c.minAtX = p.2.1 ∧ c.minAtY = p.2.2 ∧ ∀ q ∈ pre, p.1 < q.1) ∧
      (∃ pre p post, layerSamples nm l = pre ++ p :: post ∧
        c.max = p.1 ∧ c.maxAtX = p.2.1 ∧ c.maxAtY = p.2.2 ∧ ∀ q ∈ pre, q.1 < p.1)) := by
  refine ⟨?_, ?_, ?_, ?_, ?_, ?_, ?_, ?_, ?_, ?_, ?_⟩
  · intro s i h
    have ht := step_minSize_triple s i
    rw [if_neg (not_lt.mpr h)] at ht
    injection ht with t1 t23
    injection t23 with t2 t3
    exact ⟨t1, t2, t3⟩
  · intro s i h
    have ht := step_maxSize_triple s i
    rw [if_neg (not_lt.mpr h)] at ht
    injection ht with t1 t23
    injection t23 with t2 t3
    exact ⟨t1, t2, t3⟩
  · intro s i h
    have ht := step_minFeatures_triple s i
    rw [if_neg (not_lt.mpr h)] at ht
    injection ht with t1 t23
    injection t23 with t2 t3
    exact ⟨t1, t2, t3⟩
  · intro s i h
    have ht := step_maxFeatures_triple s i
    rw [if_neg (not_lt.mpr h)] at ht
    injection ht with t1 t23
    injection t23 with t2 t3
    exact ⟨t1, t2, t3⟩
  · intro x y cnt c h
    have ht := updateLayerCount_min_triple x y cnt c
    rw [if_neg (not_lt.mpr h)] at ht
    injection ht with t1 t23
    injection t23 with t2 t3
    exact ⟨t1, t2, t3⟩
  · intro x y cnt c h
    have ht := updateLayerCount_max_triple x y cnt c
    rw [if_neg (not_lt.mpr h)] at ht
    injection ht with t1 t23
    injection t23 with t2 t3
    exact ⟨t1, t2, t3⟩
  · intro l h
    have hsim := foldl_step_min l initState
    rcases extMin_spec (fun i => i.Size) (fun i => i.X) (fun i => i.Y) l
        initState.minTileSize initState.minTileSizeAtX initState.minTileSizeAtY
      with ⟨heq, _⟩ | ⟨pre, a, post, hsp, heq, _, hpre⟩
    · exfalso
      have ht := hsim.trans heq
      injection ht with t1 _
      have h0 : (reduce l).minTileSize = U64MAX := t1
      rw [h0] at h
      exact lt_irrefl _ h
    · have ht := hsim.trans heq
      injection ht with t1 t23
      injection t23 with t2 t3
      exact ⟨pre, a, post, hsp, t1, t2, t3, hpre⟩
  · intro l h
    have hsim := foldl_step_max l initState
    rcases extMax_spec (fun i => i.Size) (fun i => i.X) (fun i => i.Y) l
        initState.maxTileSize initState.maxTileSizeAtX initState.maxTileSizeAtY
      with ⟨heq, _⟩ | ⟨pre, a, post, hsp, heq, _, hpre⟩
    · exfalso
      have ht := hsim.trans heq
      injection ht with t1 _
      have h0 : (reduce l).maxTileSize = 0 := t1
      rw [h0] at h
      exact lt_irrefl _ h
    · have ht := hsim.trans heq
      injection ht with t1 t23
      injection t23 with t2 t3
      exact ⟨pre, a, post, hsp, t1, t2, t3, hpre⟩
  · intro l h
    have hsim := foldl_step_minFeatures l initState
    rcases extMin_spec (fun i => i.Features) (fun i => i.X) (fun i => i.Y) l
        initState.minFeatures initState.minFeaturesAtX initState.minFeaturesAtY
      with ⟨heq, _⟩ | ⟨pre, a, post, hsp, heq, _, hpre⟩
    · exfalso
      have ht := hsim.trans heq
      injection ht with t1 _
      have h0 : (reduce l).minFeatures = U64MAX := t1
      rw [h0] at h
      exact lt_irrefl _ h
    · have ht := hsim.trans heq
      injection ht with t1 t23
      injection t23 with t2 t3
      exact ⟨pre, a, post, hsp, t1, t2, t3, hpre⟩
  · intro l h
    have hsim := foldl_step_maxFeatures l initState
    rcases extMax_spec (fun i => i.Features) (fun i => i.X) (fun i => i.Y) l
        initState.maxFeatures initState.maxFeaturesAtX initState.maxFeaturesAtY
      with ⟨heq, _⟩ | ⟨pre, a, post, hsp, heq, _, hpre⟩
    · exfalso
      have ht := hsim.trans heq
      injection ht with t1 _
      have h0 : (reduce l).maxFeatures = 0 := t1
      rw [h0] at h
      exact lt_irrefl _ h
    · have ht := hsim.trans heq
      injection ht with t1 t23
      injection t23 with t2 t3
      exact ⟨pre, a, post, hsp, t1, t2, t3, hpre⟩
  · intro l nm c h
    exact ⟨reduce_layer_min_first nm l c h, reduce_layer_max_first nm l c h⟩

/-- The feed used to witness the amended C1. -/
def c1Wit : List tileInfo :=
  [ { X := 1, Y := 2, Size := 3, Features := 4, Layers := [] } ]

/-- C1 witness: the first-attainer clause for the size minimum
instantiated on a concrete one-result feed. -/
theorem c1_first_seen_wins_witness :
    (reduce c1Wit).minTileSize < U64MAX
    ∧ ∃ pre i post, c1Wit = pre ++ i :: post ∧
        (reduce c1Wit).minTileSize = i.Size ∧
        (reduce c1Wit).minTileSizeAtX = i.X ∧ (reduce c1Wit).minTileSizeAtY = i.Y ∧
        ∀ j ∈ pre, i.Size < j.Size :=
  ⟨by decide, c1_first_seen_wins.2.2.2.2.2.2.1 c1Wit (by decide)⟩

end MvtInfo
